import Mathlib

/-!
# Verification of the fleet-management-operator Pipeline reconciler

Shallow embedding of the reconciliation core of
`internal/controller/pipeline_controller.go` (the `PipelineReconciler`
methods `Reconcile`, `reconcileNormal`, `reconcileDelete`,
`buildUpsertRequest`, `handleAPIError`, `updateStatusSuccess`,
`updateStatusError`), the CRD data model of `api/v1alpha1/pipeline_types.go`
and the fleet-client data types of `pkg/fleetclient/types.go`.

External collaborators (the Kubernetes store, the remote Fleet Management
API, the wall clock) are modelled as an oracle environment `Env` that
supplies, per invocation, the response to the n-th remote call and the
outcome of the n-th status/metadata write.  The embedding threads an
explicit log (`ExecSt`) of the remote calls issued and the status writes
committed, so that call-count and frame properties can be stated.

Go `int64` is modelled as `Int`; Go strings as `String`; Go `nil`-able
pointers as `Option`.  Field names follow the Go source with lower-case
initial; the Go fields `Type` and `Namespace` are rendered `type_` and
`namespace_` because `Type` and lower-case `namespace` are reserved words
in Lean.
-/

namespace FleetOp

/-! ## Constants from `pipeline_controller.go` -/

def pipelineFinalizer : String := "pipeline.fleetmanagement.grafana.com/finalizer"

def conditionTypeReady : String := "Ready"
def conditionTypeSynced : String := "Synced"

def reasonSynced : String := "Synced"
def reasonSyncFailed : String := "SyncFailed"
def reasonValidationError : String := "ValidationError"
def reasonDeleting : String := "Deleting"
def reasonDeleteFailed : String := "DeleteFailed"

/-- `metav1.ConditionTrue` -/
def conditionTrue : String := "True"
/-- `metav1.ConditionFalse` -/
def conditionFalse : String := "False"

/-! ## CRD enum conversions from `api/v1alpha1/pipeline_types.go`.
`ConfigType` and `SourceType` are Go string types; they are modelled as
`String`. -/

def configTypeAlloy : String := "Alloy"
def configTypeOpenTelemetryCollector : String := "OpenTelemetryCollector"

def fleetAPIConfigTypeAlloy : String := "CONFIG_TYPE_ALLOY"
def fleetAPIConfigTypeOTEL : String := "CONFIG_TYPE_OTEL"

def sourceTypeGit : String := "Git"
def sourceTypeTerraform : String := "Terraform"
def sourceTypeKubernetes : String := "Kubernetes"
def sourceTypeUnspecified : String := "Unspecified"

def fleetAPISourceTypeGit : String := "SOURCE_TYPE_GIT"
def fleetAPISourceTypeTerraform : String := "SOURCE_TYPE_TERRAFORM"
def fleetAPISourceTypeKubernetes : String := "SOURCE_TYPE_KUBERNETES"
def fleetAPISourceTypeUnspecified : String := "SOURCE_TYPE_UNSPECIFIED"

/-- `func (c ConfigType) ToFleetAPI() string` -/
def configTypeToFleetAPI (c : String) : String :=
  if c = configTypeAlloy then fleetAPIConfigTypeAlloy
  else if c = configTypeOpenTelemetryCollector then fleetAPIConfigTypeOTEL
  else fleetAPIConfigTypeAlloy

/-- `func (s SourceType) ToFleetAPI() string` -/
def sourceTypeToFleetAPI (s : String) : String :=
  if s = sourceTypeGit then fleetAPISourceTypeGit
  else if s = sourceTypeTerraform then fleetAPISourceTypeTerraform
  else if s = sourceTypeKubernetes then fleetAPISourceTypeKubernetes
  else if s = sourceTypeUnspecified then fleetAPISourceTypeUnspecified
  else fleetAPISourceTypeKubernetes

/-! ## Data model -/

/-- `metav1.Condition`: status is one of the strings "True"/"False"/"Unknown";
`lastTransitionTime` is an abstract instant (`Nat`). -/
structure Condition where
  type_ : String
  status : String
  reason : String
  message : String
  observedGeneration : Int
  lastTransitionTime : Nat
deriving Repr, DecidableEq

/-- `v1alpha1.PipelineStatus` -/
structure PipelineStatus where
  id : String
  observedGeneration : Int
  createdAt : Option Nat
  updatedAt : Option Nat
  revisionID : String
  conditions : List Condition
deriving Repr, DecidableEq

/-- `v1alpha1.PipelineSource` -/
structure PipelineSource where
  type_ : String
  namespace_ : String
deriving Repr, DecidableEq

/-- `v1alpha1.PipelineSpec` -/
structure PipelineSpec where
  name : String
  contents : String
  matchers : List String
  enabled : Bool
  configType : String
  source : Option PipelineSource
deriving Repr, DecidableEq

/-- `v1alpha1.Pipeline`: the CRD object.  Of `metav1.ObjectMeta` we keep the
fields the controller reads: object name and namespace, `generation`
(int64), the deletion-timestamp marker (`!DeletionTimestamp.IsZero()`),
and the finalizer list. -/
structure Pipeline where
  name : String
  namespace_ : String
  generation : Int
  deletionTimestampSet : Bool
  finalizers : List String
  spec : PipelineSpec
  status : PipelineStatus
deriving Repr, DecidableEq

/-- `fleetclient.Source` -/
structure FleetSource where
  type_ : String
  namespace_ : String
deriving Repr, DecidableEq

/-- `fleetclient.Pipeline` -/
structure FleetPipeline where
  name : String
  contents : String
  matchers : List String
  enabled : Bool
  id : String
  configType : String
  source : Option FleetSource
  createdAt : Option Nat
  updatedAt : Option Nat
deriving Repr, DecidableEq

/-- `fleetclient.UpsertPipelineRequest` -/
structure UpsertPipelineRequest where
  pipeline : FleetPipeline
  validateOnly : Bool
deriving Repr, DecidableEq

/-- A Go `error` value as the controller distinguishes them:
`fleetAPI` is `*fleetclient.FleetAPIError` (the type assertion in
`handleAPIError` and `reconcileDelete` succeeds exactly on this
constructor); `transport` is any other error from the HTTP client;
`simple` is any other plain error (e.g. a failed store write). -/
inductive GoErr where
  | fleetAPI (statusCode : Nat) (operation : String) (message : String)
  | transport (message : String)
  | simple (message : String)
deriving Repr, DecidableEq

/-- `func (e *FleetAPIError) Error() string { return e.Message }`;
for the other error kinds the message itself. -/
def GoErr.errorString : GoErr → String
  | .fleetAPI _ _ m => m
  | .transport m => m
  | .simple m => m

/-- Is this error a `*FleetAPIError` with `StatusCode == http.StatusNotFound`?
(the check in `reconcileDelete`). -/
def GoErr.isFleetAPI404 : GoErr → Bool
  | .fleetAPI code _ _ => code = 404
  | _ => false

/-! ## Oracle environment and execution log -/

/-- Outcome of a Kubernetes write (`r.Update` / `r.Status().Update`):
success, an optimistic-concurrency conflict (`apierrors.IsConflict`), or
any other store error. -/
inductive UpdateOutcome where
  | ok
  | conflict
  | fail (message : String)
deriving Repr, DecidableEq

/-- The Go error value carried by a failed store write. -/
def UpdateOutcome.errValue : UpdateOutcome → GoErr
  | .ok => .simple "no error"
  | .conflict => .simple "conflict"
  | .fail m => .simple m

/-- The environment: per reconcile invocation, the response to the n-th
`UpsertPipeline` call, the n-th `DeletePipeline` call, the n-th status
subresource write and the n-th metadata write, plus the current wall-clock
instant used for `LastTransitionTime`. -/
structure Env where
  upsertResp : Nat → Except GoErr FleetPipeline
  deleteResp : Nat → Option GoErr
  statusUpdateResp : Nat → UpdateOutcome
  updateResp : Nat → UpdateOutcome
  now : Nat

/-- Execution log of one reconcile invocation: remote calls issued (in
order), the in-memory `Status.ID` at the moment of each upsert call,
status writes successfully committed, write counters, and the number of
times the delete path confirmed the remote object gone (successful or
idempotent-not-found delete, or the empty-ID skip) and proceeded to
finalizer removal. -/
structure ExecSt where
  upsertCalls : List UpsertPipelineRequest
  upsertCallIDs : List String
  deleteCalls : List String
  statusCommits : List PipelineStatus
  statusWriteCount : Nat
  metaWriteCount : Nat
  releases : Nat
deriving Repr, DecidableEq

def ExecSt.init : ExecSt :=
  { upsertCalls := [], upsertCallIDs := [], deleteCalls := [],
    statusCommits := [], statusWriteCount := 0, metaWriteCount := 0,
    releases := 0 }

/-- `ctrl.Result` -/
structure CtrlResult where
  requeue : Bool
  requeueAfter : Nat
deriving Repr, DecidableEq

/-- Outcome of one reconcile invocation: the returned `(ctrl.Result, error)`
pair, the store contents afterwards (`none` once the object is physically
deleted), and the execution log. -/
structure RecOut where
  res : CtrlResult
  err : Option GoErr
  stored : Option Pipeline
  st : ExecSt
deriving Repr, DecidableEq

/-! ## Library helpers (k8s.io/apimachinery, controller-runtime) -/

/-- `meta.FindStatusCondition`: first condition of the given type. -/
def findStatusCondition : List Condition → String → Option Condition
  | [], _ => none
  | c :: rest, t => if c.type_ = t then some c else findStatusCondition rest t

/-- Update the first condition of the given type in place (the Go code
mutates the pointer returned by `FindStatusCondition`). -/
def updateFirstCondition : List Condition → String → (Condition → Condition) → List Condition
  | [], _, _ => []
  | c :: rest, t, f =>
      if c.type_ = t then f c :: rest else c :: updateFirstCondition rest t f

/-- The overwrite `meta.SetStatusCondition` performs on the existing
condition entry: take status/reason/message/observedGeneration from the
new condition, refreshing `LastTransitionTime` only when the status
changed (using the new condition's transition time when non-zero, else
the current instant). -/
def overwriteCondition (now : Nat) (existing newCond : Condition) (c : Condition) :
    Condition :=
  { c with
    status := newCond.status
    lastTransitionTime :=
      if existing.status ≠ newCond.status then
        (if newCond.lastTransitionTime ≠ 0 then newCond.lastTransitionTime else now)
      else c.lastTransitionTime
    reason := newCond.reason
    message := newCond.message
    observedGeneration := newCond.observedGeneration }

/-- `meta.SetStatusCondition` from k8s.io/apimachinery `api/meta`:
if no condition with the type exists, append the new condition (filling a
zero `LastTransitionTime` with the current instant); otherwise overwrite
the first entry of that type via `overwriteCondition`. -/
def setStatusCondition (now : Nat) (conds : List Condition) (newCond : Condition) :
    List Condition :=
  match findStatusCondition conds newCond.type_ with
  | none =>
      conds ++ [{ newCond with lastTransitionTime :=
        if newCond.lastTransitionTime = 0 then now else newCond.lastTransitionTime }]
  | some existing =>
      updateFirstCondition conds newCond.type_ (overwriteCondition now existing newCond)

/-- `controllerutil.ContainsFinalizer` -/
def containsFinalizer (p : Pipeline) (f : String) : Bool :=
  p.finalizers.contains f

/-- `controllerutil.AddFinalizer` (appends when absent; callers check absence). -/
def addFinalizer (p : Pipeline) (f : String) : Pipeline :=
  { p with finalizers := p.finalizers ++ [f] }

/-- `controllerutil.RemoveFinalizer` (removes every occurrence). -/
def removeFinalizer (p : Pipeline) (f : String) : Pipeline :=
  { p with finalizers := p.finalizers.filter (fun s => s ≠ f) }

/-! ## Store write model

The Kubernetes store holds at most one `Pipeline`.  `r.Update` commits the
in-memory metadata (spec, finalizers) while the status subresource keeps
its stored value; `r.Status().Update` commits only the status.  After a
metadata commit, an object whose deletion timestamp is set and whose
finalizer list is empty is physically removed by the store. -/

/-- Commit of `r.Status().Update(ctx, pipeline)`: returns the outcome drawn
from the environment, the new stored object, and the log (the committed
status is appended to `statusCommits` on success). -/
def statusUpdate (env : Env) (p stored : Pipeline) (st : ExecSt) :
    UpdateOutcome × Pipeline × ExecSt :=
  let idx := st.statusWriteCount
  let st := { st with statusWriteCount := idx + 1 }
  match env.statusUpdateResp idx with
  | .ok =>
      (.ok, { stored with status := p.status },
       { st with statusCommits := st.statusCommits ++ [p.status] })
  | o => (o, stored, st)

/-- Commit of `r.Update(ctx, pipeline)` (metadata/finalizers): returns the
outcome drawn from the environment, the store contents afterwards
(`none` when the commit empties the finalizer list of a
deletion-marked object), and the log. -/
def metaUpdate (env : Env) (p stored : Pipeline) (st : ExecSt) :
    UpdateOutcome × Option Pipeline × ExecSt :=
  let idx := st.metaWriteCount
  let st := { st with metaWriteCount := idx + 1 }
  match env.updateResp idx with
  | .ok =>
      let stored' := { p with status := stored.status }
      (.ok,
       if stored'.deletionTimestampSet ∧ stored'.finalizers = [] then none
       else some stored', st)
  | o => (o, some stored, st)

/-! ## The reconciler, from `pipeline_controller.go` -/

/-- `buildUpsertRequest` (lines 182–219): deterministic request
construction.  The Go function's sole return statement is
`return &fleetclient.UpsertPipelineRequest{...}, nil`, so the embedding
always returns `Except.ok`. -/
def buildUpsertRequest (p : Pipeline) : Except GoErr UpsertPipelineRequest :=
  let pipelineName := if p.spec.name = "" then p.name else p.spec.name
  let fleetPipeline : FleetPipeline :=
    { name := pipelineName
      contents := p.spec.contents
      matchers := p.spec.matchers
      enabled := p.spec.enabled
      id := ""
      configType := configTypeToFleetAPI p.spec.configType
      source := none
      createdAt := none
      updatedAt := none }
  let fleetPipeline :=
    match p.spec.source with
    | some s =>
        let src : FleetSource :=
          { type_ := sourceTypeToFleetAPI s.type_, namespace_ := s.namespace_ }
        { fleetPipeline with source := some src }
    | none =>
        let src : FleetSource :=
          { type_ := sourceTypeToFleetAPI sourceTypeKubernetes,
            namespace_ := p.namespace_ ++ "/" ++ p.name }
        { fleetPipeline with source := some src }
  .ok { pipeline := fleetPipeline, validateOnly := false }

/-- `updateStatusSuccess` (lines 257–302). -/
def updateStatusSuccess (env : Env) (p stored : Pipeline) (st : ExecSt)
    (apiPipeline : FleetPipeline) : RecOut :=
  let p := { p with status := { p.status with
    id := apiPipeline.id, observedGeneration := p.generation } }
  let p := match apiPipeline.createdAt with
    | some t => { p with status := { p.status with createdAt := some t } }
    | none => p
  let p := match apiPipeline.updatedAt with
    | some t => { p with status := { p.status with updatedAt := some t } }
    | none => p
  let readyCond : Condition :=
    { type_ := conditionTypeReady, status := conditionTrue,
      reason := reasonSynced,
      message := "Pipeline successfully synced to Fleet Management",
      observedGeneration := p.generation, lastTransitionTime := 0 }
  let condsR := setStatusCondition env.now p.status.conditions readyCond
  let p := { p with status := { p.status with conditions := condsR } }
  let syncedCond : Condition :=
    { type_ := conditionTypeSynced, status := conditionTrue,
      reason := reasonSynced,
      message := "UpsertPipeline succeeded, ID: " ++ apiPipeline.id,
      observedGeneration := p.generation, lastTransitionTime := 0 }
  let condsS := setStatusCondition env.now p.status.conditions syncedCond
  let p := { p with status := { p.status with conditions := condsS } }
  match statusUpdate env p stored st with
  | (.ok, stored, st) =>
      { res := { requeue := false, requeueAfter := 0 }, err := none,
        stored := some stored, st := st }
  | (.conflict, stored, st) =>
      { res := { requeue := true, requeueAfter := 0 }, err := none,
        stored := some stored, st := st }
  | (.fail m, stored, st) =>
      { res := { requeue := false, requeueAfter := 0 }, err := some (.simple m),
        stored := some stored, st := st }

/-- `updateStatusError` (lines 304–347). -/
def updateStatusError (env : Env) (p stored : Pipeline) (st : ExecSt)
    (reason : String) (e : GoErr) : RecOut :=
  let p := { p with status := { p.status with observedGeneration := p.generation } }
  let readyCond : Condition :=
    { type_ := conditionTypeReady, status := conditionFalse,
      reason := reason, message := e.errorString,
      observedGeneration := p.generation, lastTransitionTime := 0 }
  let condsR := setStatusCondition env.now p.status.conditions readyCond
  let p := { p with status := { p.status with conditions := condsR } }
  let syncedCond : Condition :=
    { type_ := conditionTypeSynced, status := conditionFalse,
      reason := reason, message := e.errorString,
      observedGeneration := p.generation, lastTransitionTime := 0 }
  let condsS := setStatusCondition env.now p.status.conditions syncedCond
  let p := { p with status := { p.status with conditions := condsS } }
  match statusUpdate env p stored st with
  | (.ok, stored, st) =>
      if reason = reasonValidationError then
        { res := { requeue := false, requeueAfter := 0 }, err := none,
          stored := some stored, st := st }
      else
        { res := { requeue := false, requeueAfter := 0 }, err := some e,
          stored := some stored, st := st }
  | (.conflict, stored, st) =>
      { res := { requeue := true, requeueAfter := 0 }, err := none,
        stored := some stored, st := st }
  | (.fail m, stored, st) =>
      { res := { requeue := false, requeueAfter := 0 }, err := some (.simple m),
        stored := some stored, st := st }

/-- Cut-off outcome when the recreate recursion's fuel is exhausted.  The
Go code has no such case: `handleAPIError`'s not-found branch calls
`reconcileNormal` recursively with no bound, so a run of the source can
issue more upsert calls than any fuel; theorems supply enough fuel. -/
def fuelExhausted (stored : Pipeline) (st : ExecSt) : RecOut :=
  { res := { requeue := false, requeueAfter := 0 },
    err := some (.simple "recreate fuel exhausted"),
    stored := some stored, st := st }

/-- `handleAPIError` (lines 222–254), except for the not-found branch's
recursive call: the source's `case http.StatusNotFound` clears
`pipeline.Status.ID` and calls `r.reconcileNormal(ctx, pipeline)`; here
that branch returns `.inr` carrying the cleared pipeline, and
`reconcileNormal` itself performs the recursive call (bounded by fuel so
the definition is structurally recursive and computes). -/
def handleAPIError (env : Env) (p stored : Pipeline) (st : ExecSt) (e : GoErr) :
    Sum RecOut Pipeline :=
  match e with
  | .fleetAPI code _op _msg =>
      if code = 400 then
        .inl (updateStatusError env p stored st reasonValidationError e)
      else if code = 404 then
        .inr { p with status := { p.status with id := "" } }
      else if code = 429 then
        .inl { res := { requeue := false, requeueAfter := 10 }, err := none,
               stored := some stored, st := st }
      else
        .inl (updateStatusError env p stored st reasonSyncFailed e)
  | _ => .inl (updateStatusError env p stored st reasonSyncFailed e)

/-- `reconcileNormal` (lines 124–142): build the request, call
`UpsertPipeline` (logging the call and the in-memory `Status.ID` at call
time), then dispatch the outcome; the not-found recreate loops back with
`fuel` decremented. -/
def reconcileNormal (env : Env) : Nat → Pipeline → Pipeline → ExecSt → RecOut
  | fuel, p, stored, st =>
    match buildUpsertRequest p with
    | .error e => updateStatusError env p stored st reasonValidationError e
    | .ok req =>
      let idx := st.upsertCalls.length
      let st := { st with upsertCalls := st.upsertCalls ++ [req],
                          upsertCallIDs := st.upsertCallIDs ++ [p.status.id] }
      match env.upsertResp idx with
      | .ok apiPipeline => updateStatusSuccess env p stored st apiPipeline
      | .error e =>
        match handleAPIError env p stored st e with
        | .inl out => out
        | .inr p' =>
          match fuel with
          | 0 => fuelExhausted stored st
          | fuel' + 1 => reconcileNormal env fuel' p' stored st

/-- The tail of `reconcileDelete` (lines 170–178): remove the finalizer
and persist the metadata write; a failed write returns the error.  The
`releases` counter records that the delete was confirmed successful or
moot before removal was attempted. -/
def removeAndCommit (env : Env) (p : Pipeline) (st : ExecSt) : RecOut :=
  let st := { st with releases := st.releases + 1 }
  let p' := removeFinalizer p pipelineFinalizer
  match metaUpdate env p' p st with
  | (.ok, storedOpt, st) =>
      { res := { requeue := false, requeueAfter := 0 }, err := none,
        stored := storedOpt, st := st }
  | (.conflict, storedOpt, st) =>
      { res := { requeue := false, requeueAfter := 0 },
        err := some (UpdateOutcome.conflict.errValue), stored := storedOpt, st := st }
  | (.fail m, storedOpt, st) =>
      { res := { requeue := false, requeueAfter := 0 },
        err := some ((UpdateOutcome.fail m).errValue), stored := storedOpt, st := st }

/-- `reconcileDelete` (lines 145–179).  Falls through to finalizer removal
exactly when the ID is empty, the delete succeeded, or the delete returned
a Fleet API 404; any other delete error records `DeleteFailed` and keeps
the finalizer. -/
def reconcileDelete (env : Env) (p : Pipeline) (st : ExecSt) : RecOut :=
  if ¬ containsFinalizer p pipelineFinalizer then
    { res := { requeue := false, requeueAfter := 0 }, err := none,
      stored := some p, st := st }
  else if p.status.id ≠ "" then
    let idx := st.deleteCalls.length
    let st := { st with deleteCalls := st.deleteCalls ++ [p.status.id] }
    match env.deleteResp idx with
    | some e =>
        if e.isFleetAPI404 then removeAndCommit env p st
        else updateStatusError env p p st reasonDeleteFailed e
    | none => removeAndCommit env p st
  else removeAndCommit env p st

/-- `Reconcile` (lines 80–121), for a successfully fetched pipeline:
delete path, finalizer attachment, the observed-generation gate, then the
normal path. -/
def Reconcile (env : Env) (fuel : Nat) (p : Pipeline) : RecOut :=
  if p.deletionTimestampSet then
    reconcileDelete env p ExecSt.init
  else if ¬ containsFinalizer p pipelineFinalizer then
    let p' := addFinalizer p pipelineFinalizer
    match metaUpdate env p' p ExecSt.init with
    | (.ok, storedOpt, st) =>
        { res := { requeue := false, requeueAfter := 0 }, err := none,
          stored := storedOpt, st := st }
    | (o, storedOpt, st) =>
        { res := { requeue := false, requeueAfter := 0 },
          err := some o.errValue, stored := storedOpt, st := st }
  else if p.status.observedGeneration = p.generation then
    { res := { requeue := false, requeueAfter := 0 }, err := none,
      stored := some p, st := ExecSt.init }
  else
    reconcileNormal env fuel p p ExecSt.init

/-- `Reconcile` including the fetch: a missing object (`IsNotFound` on
`r.Get`) is not an error and performs nothing. -/
def ReconcileTop (env : Env) (fuel : Nat) : Option Pipeline → RecOut
  | none =>
      { res := { requeue := false, requeueAfter := 0 }, err := none,
        stored := none, st := ExecSt.init }
  | some p => Reconcile env fuel p

/-! ## Lemmas about the condition-list helpers -/

/-! ## Concrete objects, trace model and auxiliary predicates used by the theorems -/
def specA : PipelineSpec :=
  { name := "", contents := "logging {}", matchers := ["env=prod"],
    enabled := true, configType := "Alloy", source := none }

/-- A freshly created pipeline: generation 1, no finalizer, empty status. -/
def freshP : Pipeline :=
  { name := "demo", namespace_ := "default", generation := 1,
    deletionTimestampSet := false, finalizers := [],
    spec := specA,
    status := { id := "", observedGeneration := 0, createdAt := none,
                updatedAt := none, revisionID := "", conditions := [] } }

/-- `freshP` after finalizer attachment, still unsynced. -/
def readyP : Pipeline := { freshP with finalizers := [pipelineFinalizer] }

/-- The remote object returned by a successful upsert. -/
def fpX : FleetPipeline :=
  { name := "demo", contents := "logging {}", matchers := ["env=prod"],
    enabled := true, id := "X", configType := "CONFIG_TYPE_ALLOY",
    source := none, createdAt := some 5, updatedAt := some 6 }

/-- Benign environment: upserts succeed, deletes succeed, writes commit. -/
def envOk : Env :=
  { upsertResp := fun _ => .ok fpX, deleteResp := fun _ => none,
    statusUpdateResp := fun _ => .ok, updateResp := fun _ => .ok, now := 100 }

def env429 : Env :=
  { envOk with upsertResp := fun _ => .error (.fleetAPI 429 "UpsertPipeline" "slow down") }

def env400 : Env :=
  { envOk with upsertResp := fun _ => .error (.fleetAPI 400 "UpsertPipeline" "bad matcher") }

def env503 : Env :=
  { envOk with upsertResp := fun _ => .error (.fleetAPI 503 "UpsertPipeline" "oops") }

/-- First two upserts answer not-found, the third succeeds. -/
def env404twice : Env :=
  { envOk with upsertResp := fun n =>
      if n < 2 then .error (.fleetAPI 404 "UpsertPipeline" "gone") else .ok fpX }

/-- Not-found once, then success. -/
def env404once : Env :=
  { envOk with upsertResp := fun n =>
      if n = 0 then .error (.fleetAPI 404 "UpsertPipeline" "gone") else .ok fpX }

/-- A synced pipeline marked for deletion, holding remote ID "X". -/
def delP : Pipeline :=
  { readyP with
    deletionTimestampSet := true,
    status := { readyP.status with id := "X", observedGeneration := 1 } }

/-- Like `delP` but the remote ID was never assigned. -/
def delPNoID : Pipeline := { readyP with deletionTimestampSet := true }

def envDelErr : Env :=
  { envOk with deleteResp := fun _ => some (.fleetAPI 500 "DeletePipeline" "boom") }

def envDel404 : Env :=
  { envOk with deleteResp := fun _ => some (.fleetAPI 404 "DeletePipeline" "missing") }

/-- The upsert request `buildUpsertRequest` produces for `freshP`. -/
def freshReq : UpsertPipelineRequest :=
  { pipeline :=
    { name := "demo", contents := "logging {}", matchers := ["env=prod"],
      enabled := true, id := "", configType := "CONFIG_TYPE_ALLOY",
      source := some { type_ := "SOURCE_TYPE_KUBERNETES", namespace_ := "default/demo" },
      createdAt := none, updatedAt := none },
    validateOnly := false }

/-- The stored object after a successful sync of `readyP` under `envOk`. -/
def syncedP : Pipeline :=
  { readyP with status :=
    { id := "X", observedGeneration := 1, createdAt := some 5, updatedAt := some 6,
      revisionID := "",
      conditions :=
        [{ type_ := "Ready", status := "True", reason := "Synced",
           message := "Pipeline successfully synced to Fleet Management",
           observedGeneration := 1, lastTransitionTime := 100 },
         { type_ := "Synced", status := "True", reason := "Synced",
           message := "UpsertPipeline succeeded, ID: X",
           observedGeneration := 1, lastTransitionTime := 100 }] } }

/-- A synced-then-edited pipeline: remote ID "X", generation ahead of
`observedGeneration`, so the normal path runs with a non-empty remote ID. -/
def recreateP : Pipeline :=
  { readyP with status := { readyP.status with id := "X" } }

/-- Is a delete outcome success-or-not-found (the idempotent-delete
acceptance in `reconcileDelete`)? -/
def okOr404 : Option GoErr → Bool
  | none => true
  | some e => e.isFleetAPI404

/-- Has the invocation removed this controller's finalizer from the store
(either the stored object lacks it, or the object was physically
deleted)? -/
def finalizerGone (out : RecOut) : Bool :=
  match out.stored with
  | none => true
  | some q => ¬ containsFinalizer q pipelineFinalizer

inductive Step where
  | reconcile (env : Env) (fuel : Nat)
  | bumpGeneration (sp : PipelineSpec)
  | markDeleted

structure World where
  stored : Option Pipeline
  commits : List PipelineStatus
  attemptedSince : Bool

def stepWorld (w : World) : Step → World
  | .reconcile env fuel =>
      match w.stored with
      | none => w
      | some p =>
          let out := Reconcile env fuel p
          { stored := out.stored,
            commits := w.commits ++ out.st.statusCommits,
            attemptedSince :=
              if 0 < out.st.releases then false
              else (w.attemptedSince || !out.st.upsertCalls.isEmpty) }
  | .bumpGeneration sp =>
      { w with stored := w.stored.map (fun p =>
          { p with spec := sp, generation := p.generation + 1 }) }
  | .markDeleted =>
      { w with stored := w.stored.map (fun p =>
          { p with deletionTimestampSet := true }) }

def runTrace (w : World) : List Step → World
  | [] => w
  | s :: rest => runTrace (stepWorld w s) rest

def initWorld (p : Pipeline) : World :=
  { stored := some p, commits := [], attemptedSince := false }

/-- The combined inductive invariant for C5. -/
def GenInv (w : World) : Prop :=
  List.Chain' (· ≤ ·) (w.commits.map (fun c => c.observedGeneration)) ∧
  ∀ q, w.stored = some q → ∀ c ∈ w.commits, c.observedGeneration ≤ q.generation

/-- The inductive invariant for C6. -/
def FinInv (w : World) : Prop :=
  ∀ q, w.stored = some q → w.attemptedSince = true →
    containsFinalizer q pipelineFinalizer = true

theorem find_append_of_none (l₁ l₂ : List Condition) (t : String)
    (h : findStatusCondition l₁ t = none) :
    findStatusCondition (l₁ ++ l₂) t = findStatusCondition l₂ t := by
  induction l₁ with
  | nil => rfl
  | cons c rest ih =>
      rw [List.cons_append]
      simp only [findStatusCondition] at h ⊢
      by_cases hc : c.type_ = t
      · rw [if_pos hc] at h; exact absurd h (by simp)
      · rw [if_neg hc] at h ⊢; exact ih h

theorem find_append_single_other (l : List Condition) (c : Condition) (t : String)
    (h : ¬ c.type_ = t) :
    findStatusCondition (l ++ [c]) t = findStatusCondition l t := by
  induction l with
  | nil => simp [findStatusCondition, h]
  | cons d rest ih =>
      rw [List.cons_append]
      simp only [findStatusCondition]
      by_cases hd : d.type_ = t
      · rw [if_pos hd, if_pos hd]
      · rw [if_neg hd, if_neg hd]; exact ih

theorem find_updateFirst_overwrite (now : Nat) (ex nc : Condition)
    (conds : List Condition) (t : String) :
    findStatusCondition (updateFirstCondition conds t (overwriteCondition now ex nc)) t =
      (findStatusCondition conds t).map (overwriteCondition now ex nc) := by
  induction conds with
  | nil => rfl
  | cons c rest ih =>
      simp only [updateFirstCondition]
      by_cases h : c.type_ = t
      · rw [if_pos h]
        simp only [findStatusCondition]
        rw [if_pos (show (overwriteCondition now ex nc c).type_ = t from h), if_pos h]
        rfl
      · rw [if_neg h]
        simp only [findStatusCondition]
        rw [if_neg h, if_neg h]
        exact ih

theorem find_updateFirst_overwrite_other (now : Nat) (ex nc : Condition)
    (conds : List Condition) (t t' : String) (hne : ¬ t' = t) :
    findStatusCondition (updateFirstCondition conds t (overwriteCondition now ex nc)) t' =
      findStatusCondition conds t' := by
  induction conds with
  | nil => rfl
  | cons c rest ih =>
      simp only [updateFirstCondition]
      by_cases h : c.type_ = t
      · rw [if_pos h]
        simp only [findStatusCondition]
        have hct' : ¬ c.type_ = t' := fun hc => hne (hc ▸ h ▸ rfl)
        rw [if_neg (show ¬ (overwriteCondition now ex nc c).type_ = t' from hct'),
            if_neg hct']
      · rw [if_neg h]
        simp only [findStatusCondition]
        by_cases h' : c.type_ = t'
        · rw [if_pos h', if_pos h']
        · rw [if_neg h', if_neg h']; exact ih

theorem find_eq_some_type (conds : List Condition) (t : String) (c : Condition)
    (h : findStatusCondition conds t = some c) : c.type_ = t := by
  induction conds with
  | nil => exact absurd h (by simp [findStatusCondition])
  | cons d rest ih =>
      simp only [findStatusCondition] at h
      by_cases hd : d.type_ = t
      · rw [if_pos hd] at h
        cases h
        exact hd
      · rw [if_neg hd] at h
        exact ih h

theorem find_setStatusCondition_self (now : Nat) (conds : List Condition)
    (nc : Condition) :
    ∃ c', findStatusCondition (setStatusCondition now conds nc) nc.type_ = some c' ∧
      c'.type_ = nc.type_ ∧ c'.status = nc.status ∧ c'.reason = nc.reason ∧
      c'.message = nc.message ∧ c'.observedGeneration = nc.observedGeneration := by
  unfold setStatusCondition
  cases h : findStatusCondition conds nc.type_ with
  | none =>
      refine ⟨{ nc with lastTransitionTime :=
        if nc.lastTransitionTime = 0 then now else nc.lastTransitionTime },
        ?_, rfl, rfl, rfl, rfl, rfl⟩
      rw [find_append_of_none conds _ _ h]
      simp [findStatusCondition]
  | some ex =>
      rw [find_updateFirst_overwrite now ex nc conds nc.type_, h]
      exact ⟨_, rfl, find_eq_some_type conds _ ex h, rfl, rfl, rfl, rfl⟩

theorem find_setStatusCondition_other (now : Nat) (conds : List Condition)
    (nc : Condition) (t' : String) (hne : ¬ t' = nc.type_) :
    findStatusCondition (setStatusCondition now conds nc) t' =
      findStatusCondition conds t' := by
  unfold setStatusCondition
  cases h : findStatusCondition conds nc.type_ with
  | none => exact find_append_single_other conds _ _ (fun he => hne (he ▸ rfl))
  | some ex => exact find_updateFirst_overwrite_other now ex nc conds _ _ hne

/-! ## Frame lemmas for the status writers -/

/-- Whatever the status-write outcome, `updateStatusError` leaves the stored
object's metadata (in particular finalizers, generation, deletion marker)
untouched, issues no remote call, and only ever commits a status whose
`observedGeneration` is the in-memory pipeline's generation. -/
theorem updateStatusError_frame (env : Env) (p stored : Pipeline) (st : ExecSt)
    (reason : String) (e : GoErr) :
    (∃ s, (updateStatusError env p stored st reason e).stored =
        some { stored with status := s }) ∧
    (updateStatusError env p stored st reason e).st.releases = st.releases ∧
    (updateStatusError env p stored st reason e).st.deleteCalls = st.deleteCalls ∧
    (updateStatusError env p stored st reason e).st.upsertCalls = st.upsertCalls ∧
    ∀ c ∈ (updateStatusError env p stored st reason e).st.statusCommits,
      c ∈ st.statusCommits ∨ c.observedGeneration = p.generation := by
  unfold updateStatusError statusUpdate
  cases h : env.statusUpdateResp st.statusWriteCount with
  | ok =>
      simp only [h]
      by_cases hr : reason = reasonValidationError <;>
        simp [hr, List.mem_append] <;>
        exact fun c hc => hc.imp id (fun h2 => by rw [h2])
  | conflict => simp [h]; exact ⟨⟨stored.status, rfl⟩, fun c hc => Or.inl hc⟩
  | fail m => simp [h]; exact ⟨⟨stored.status, rfl⟩, fun c hc => Or.inl hc⟩

/-- Same frame facts for `updateStatusSuccess`. -/
theorem updateStatusSuccess_frame (env : Env) (p stored : Pipeline) (st : ExecSt)
    (fp : FleetPipeline) :
    (∃ s, (updateStatusSuccess env p stored st fp).stored =
        some { stored with status := s }) ∧
    (updateStatusSuccess env p stored st fp).st.releases = st.releases ∧
    (updateStatusSuccess env p stored st fp).st.deleteCalls = st.deleteCalls ∧
    (updateStatusSuccess env p stored st fp).st.upsertCalls = st.upsertCalls ∧
    ∀ c ∈ (updateStatusSuccess env p stored st fp).st.statusCommits,
      c ∈ st.statusCommits ∨ c.observedGeneration = p.generation := by
  unfold updateStatusSuccess statusUpdate
  cases hc : fp.createdAt <;> cases hu : fp.updatedAt <;>
    cases h : env.statusUpdateResp st.statusWriteCount <;>
    simp only [h, hc, hu] <;> simp [List.mem_append] <;>
    first
      | exact ⟨⟨stored.status, rfl⟩, fun c hcm => Or.inl hcm⟩
      | exact fun c hcm => hcm.imp id (fun h2 => by rw [h2])

/-- When the status write commits, `updateStatusError` commits exactly one
new status: `observedGeneration` is set to the pipeline's generation, the
`Ready` and `Synced` conditions are both `False` with the given reason and
the error's message, the remote ID is left as it was in memory, and the
returned disposition is no-requeue, with the original error propagated
unless the reason is `ValidationError`. -/
theorem updateStatusError_ok (env : Env) (p stored : Pipeline) (st : ExecSt)
    (reason : String) (e : GoErr)
    (hok : env.statusUpdateResp st.statusWriteCount = .ok) :
    ∃ s, updateStatusError env p stored st reason e =
      { res := { requeue := false, requeueAfter := 0 },
        err := if reason = reasonValidationError then none else some e,
        stored := some { stored with status := s },
        st := { st with statusCommits := st.statusCommits ++ [s],
                        statusWriteCount := st.statusWriteCount + 1 } } ∧
      s.id = p.status.id ∧
      s.observedGeneration = p.generation ∧
      (∃ c, findStatusCondition s.conditions conditionTypeSynced = some c ∧
        c.status = conditionFalse ∧ c.reason = reason ∧
        c.message = e.errorString ∧ c.observedGeneration = p.generation) ∧
      (∃ c, findStatusCondition s.conditions conditionTypeReady = some c ∧
        c.status = conditionFalse ∧ c.reason = reason ∧
        c.message = e.errorString ∧ c.observedGeneration = p.generation) := by
  unfold updateStatusError statusUpdate
  simp only [hok]
  refine ⟨{ p.status with
      observedGeneration := p.generation,
      conditions := setStatusCondition env.now
        (setStatusCondition env.now p.status.conditions
          { type_ := conditionTypeReady, status := conditionFalse,
            reason := reason, message := e.errorString,
            observedGeneration := p.generation, lastTransitionTime := 0 })
        { type_ := conditionTypeSynced, status := conditionFalse,
          reason := reason, message := e.errorString,
          observedGeneration := p.generation, lastTransitionTime := 0 } },
    ?_, rfl, rfl, ?_, ?_⟩
  · by_cases hr : reason = reasonValidationError <;> simp [hr]
  · obtain ⟨c, hfind, -, hst, hre, hme, hog⟩ :=
      find_setStatusCondition_self env.now
        (setStatusCondition env.now p.status.conditions
          { type_ := conditionTypeReady, status := conditionFalse,
            reason := reason, message := e.errorString,
            observedGeneration := p.generation, lastTransitionTime := 0 })
        { type_ := conditionTypeSynced, status := conditionFalse,
          reason := reason, message := e.errorString,
          observedGeneration := p.generation, lastTransitionTime := 0 }
    exact ⟨c, hfind, hst, hre, hme, hog⟩
  · rw [find_setStatusCondition_other _ _ _ conditionTypeReady
      (show ¬ conditionTypeReady = conditionTypeSynced by decide)]
    obtain ⟨c, hfind, -, hst, hre, hme, hog⟩ :=
      find_setStatusCondition_self env.now p.status.conditions
        { type_ := conditionTypeReady, status := conditionFalse,
          reason := reason, message := e.errorString,
          observedGeneration := p.generation, lastTransitionTime := 0 }
    exact ⟨c, hfind, hst, hre, hme, hog⟩

/-- `buildUpsertRequest` has a single return statement with a `nil` error:
it always succeeds. -/
theorem buildUpsertRequest_isOk (p : Pipeline) :
    ∃ r, buildUpsertRequest p = Except.ok r := by
  unfold buildUpsertRequest
  cases p.spec.source <;> exact ⟨_, rfl⟩

/-- Frame facts for the whole normal path (`reconcileNormal`, including the
recreate recursion): the stored object keeps its metadata (only the status
subresource can change), no delete call and no finalizer release happens,
at least one upsert call is always issued, and every newly committed
status carries `observedGeneration = p.generation`. -/
theorem reconcileNormal_frame (env : Env) :
    ∀ (fuel : Nat) (p stored : Pipeline) (st : ExecSt),
    (∃ s, (reconcileNormal env fuel p stored st).stored = some { stored with status := s }) ∧
    (reconcileNormal env fuel p stored st).st.releases = st.releases ∧
    (reconcileNormal env fuel p stored st).st.deleteCalls = st.deleteCalls ∧
    (∃ r l, (reconcileNormal env fuel p stored st).st.upsertCalls = st.upsertCalls ++ r :: l) ∧
    (∀ c ∈ (reconcileNormal env fuel p stored st).st.statusCommits,
      c ∈ st.statusCommits ∨ c.observedGeneration = p.generation) := by
  intro fuel
  induction fuel with
  | zero =>
      intro p stored st
      obtain ⟨req, hreq⟩ := buildUpsertRequest_isOk p
      unfold reconcileNormal
      rw [hreq]
      dsimp only
      cases hresp : env.upsertResp st.upsertCalls.length with
      | ok fp =>
          obtain ⟨hstored, hrel, hdel, hup, hcom⟩ :=
            updateStatusSuccess_frame env p stored
              { st with upsertCalls := st.upsertCalls ++ [req],
                        upsertCallIDs := st.upsertCallIDs ++ [p.status.id] } fp
          refine ⟨hstored, hrel, hdel, ⟨req, [], by simpa using hup⟩, ?_⟩
          intro c hc
          simpa using hcom c hc
      | error e =>
          unfold handleAPIError
          cases e with
          | fleetAPI code op msg =>
              dsimp only
              by_cases h400 : code = 400
              · rw [if_pos h400]
                obtain ⟨hstored, hrel, hdel, hup, hcom⟩ :=
                  updateStatusError_frame env p stored
                    { st with upsertCalls := st.upsertCalls ++ [req],
                              upsertCallIDs := st.upsertCallIDs ++ [p.status.id] }
                    reasonValidationError (.fleetAPI code op msg)
                refine ⟨hstored, hrel, hdel, ⟨req, [], by simpa using hup⟩, ?_⟩
                intro c hc
                simpa using hcom c hc
              · rw [if_neg h400]
                by_cases h404 : code = 404
                · rw [if_pos h404]
                  exact ⟨⟨stored.status, rfl⟩, rfl, rfl, ⟨req, [], by simp [fuelExhausted]⟩,
                    fun c hc => Or.inl (by simpa using hc)⟩
                · rw [if_neg h404]
                  by_cases h429 : code = 429
                  · rw [if_pos h429]
                    exact ⟨⟨stored.status, rfl⟩, rfl, rfl, ⟨req, [], by simp [fuelExhausted]⟩,
                      fun c hc => Or.inl (by simpa using hc)⟩
                  · rw [if_neg h429]
                    obtain ⟨hstored, hrel, hdel, hup, hcom⟩ :=
                      updateStatusError_frame env p stored
                        { st with upsertCalls := st.upsertCalls ++ [req],
                                  upsertCallIDs := st.upsertCallIDs ++ [p.status.id] }
                        reasonSyncFailed (.fleetAPI code op msg)
                    refine ⟨hstored, hrel, hdel, ⟨req, [], by simpa using hup⟩, ?_⟩
                    intro c hc
                    simpa using hcom c hc
          | transport m =>
              dsimp only
              obtain ⟨hstored, hrel, hdel, hup, hcom⟩ :=
                updateStatusError_frame env p stored
                  { st with upsertCalls := st.upsertCalls ++ [req],
                            upsertCallIDs := st.upsertCallIDs ++ [p.status.id] }
                  reasonSyncFailed (.transport m)
              refine ⟨hstored, hrel, hdel, ⟨req, [], by simpa using hup⟩, ?_⟩
              intro c hc
              simpa using hcom c hc
          | simple m =>
              dsimp only
              obtain ⟨hstored, hrel, hdel, hup, hcom⟩ :=
                updateStatusError_frame env p stored
                  { st with upsertCalls := st.upsertCalls ++ [req],
                            upsertCallIDs := st.upsertCallIDs ++ [p.status.id] }
                  reasonSyncFailed (.simple m)
              refine ⟨hstored, hrel, hdel, ⟨req, [], by simpa using hup⟩, ?_⟩
              intro c hc
              simpa using hcom c hc
  | succ n ih =>
      intro p stored st
      obtain ⟨req, hreq⟩ := buildUpsertRequest_isOk p
      unfold reconcileNormal
      rw [hreq]
      dsimp only
      cases hresp : env.upsertResp st.upsertCalls.length with
      | ok fp =>
          obtain ⟨hstored, hrel, hdel, hup, hcom⟩ :=
            updateStatusSuccess_frame env p stored
              { st with upsertCalls := st.upsertCalls ++ [req],
                        upsertCallIDs := st.upsertCallIDs ++ [p.status.id] } fp
          refine ⟨hstored, hrel, hdel, ⟨req, [], by simpa using hup⟩, ?_⟩
          intro c hc
          simpa using hcom c hc
      | error e =>
          unfold handleAPIError
          cases e with
          | fleetAPI code op msg =>
              dsimp only
              by_cases h400 : code = 400
              · rw [if_pos h400]
                obtain ⟨hstored, hrel, hdel, hup, hcom⟩ :=
                  updateStatusError_frame env p stored
                    { st with upsertCalls := st.upsertCalls ++ [req],
                              upsertCallIDs := st.upsertCallIDs ++ [p.status.id] }
                    reasonValidationError (.fleetAPI code op msg)
                refine ⟨hstored, hrel, hdel, ⟨req, [], by simpa using hup⟩, ?_⟩
                intro c hc
                simpa using hcom c hc
              · rw [if_neg h400]
                by_cases h404 : code = 404
                · rw [if_pos h404]
                  obtain ⟨hstored, hrel, hdel, hup, hcom⟩ :=
                    ih { p with status := { p.status with id := "" } } stored
                      { st with upsertCalls := st.upsertCalls ++ [req],
                                upsertCallIDs := st.upsertCallIDs ++ [p.status.id] }
                  obtain ⟨r, l, hul⟩ := hup
                  refine ⟨hstored, hrel, hdel, ?_, ?_⟩
                  · exact ⟨req, r :: l, by simpa [List.append_assoc] using hul⟩
                  · intro c hc
                    rcases hcom c hc with h | h
                    · exact Or.inl (by simpa using h)
                    · exact Or.inr h
                · rw [if_neg h404]
                  by_cases h429 : code = 429
                  · rw [if_pos h429]
                    exact ⟨⟨stored.status, rfl⟩, rfl, rfl, ⟨req, [], by simp [fuelExhausted]⟩,
                      fun c hc => Or.inl (by simpa using hc)⟩
                  · rw [if_neg h429]
                    obtain ⟨hstored, hrel, hdel, hup, hcom⟩ :=
                      updateStatusError_frame env p stored
                        { st with upsertCalls := st.upsertCalls ++ [req],
                                  upsertCallIDs := st.upsertCallIDs ++ [p.status.id] }
                        reasonSyncFailed (.fleetAPI code op msg)
                    refine ⟨hstored, hrel, hdel, ⟨req, [], by simpa using hup⟩, ?_⟩
                    intro c hc
                    simpa using hcom c hc
          | transport m =>
              dsimp only
              obtain ⟨hstored, hrel, hdel, hup, hcom⟩ :=
                updateStatusError_frame env p stored
                  { st with upsertCalls := st.upsertCalls ++ [req],
                            upsertCallIDs := st.upsertCallIDs ++ [p.status.id] }
                  reasonSyncFailed (.transport m)
              refine ⟨hstored, hrel, hdel, ⟨req, [], by simpa using hup⟩, ?_⟩
              intro c hc
              simpa using hcom c hc
          | simple m =>
              dsimp only
              obtain ⟨hstored, hrel, hdel, hup, hcom⟩ :=
                updateStatusError_frame env p stored
                  { st with upsertCalls := st.upsertCalls ++ [req],
                            upsertCallIDs := st.upsertCallIDs ++ [p.status.id] }
                  reasonSyncFailed (.simple m)
              refine ⟨hstored, hrel, hdel, ⟨req, [], by simpa using hup⟩, ?_⟩
              intro c hc
              simpa using hcom c hc

/-- Frame facts for the finalizer-removal tail: no remote call, no status
commit, exactly one release recorded, and any remaining stored object
keeps generation and deletion marker, with finalizers either untouched
(failed write) or with this controller's finalizer filtered out. -/
theorem removeAndCommit_spec (env : Env) (p : Pipeline) (st : ExecSt) :
    (removeAndCommit env p st).st.upsertCalls = st.upsertCalls ∧
    (removeAndCommit env p st).st.deleteCalls = st.deleteCalls ∧
    (removeAndCommit env p st).st.statusCommits = st.statusCommits ∧
    (removeAndCommit env p st).st.releases = st.releases + 1 ∧
    (∀ q, (removeAndCommit env p st).stored = some q →
      q.generation = p.generation ∧
      q.deletionTimestampSet = p.deletionTimestampSet ∧
      (q.finalizers = p.finalizers ∨
        q.finalizers = p.finalizers.filter (fun s => s ≠ pipelineFinalizer))) := by
  unfold removeAndCommit metaUpdate
  dsimp only
  cases h : env.updateResp st.metaWriteCount with
  | ok =>
      dsimp only
      refine ⟨rfl, rfl, rfl, rfl, fun q hq => ?_⟩
      split at hq
      · cases hq
      · cases hq
        exact ⟨rfl, rfl, Or.inr rfl⟩
  | conflict =>
      dsimp only
      refine ⟨rfl, rfl, rfl, rfl, fun q hq => ?_⟩
      cases hq
      exact ⟨rfl, rfl, Or.inl rfl⟩
  | fail m =>
      dsimp only
      refine ⟨rfl, rfl, rfl, rfl, fun q hq => ?_⟩
      cases hq
      exact ⟨rfl, rfl, Or.inl rfl⟩

/-- Frame facts for the delete path: no upsert call; any new status commit
carries the pipeline's generation; a surviving stored object keeps
generation and deletion marker; and when no release was recorded the
finalizer list is untouched. -/
theorem reconcileDelete_frame (env : Env) (p : Pipeline) (st : ExecSt) :
    (reconcileDelete env p st).st.upsertCalls = st.upsertCalls ∧
    (∀ c ∈ (reconcileDelete env p st).st.statusCommits,
      c ∈ st.statusCommits ∨ c.observedGeneration = p.generation) ∧
    (∀ q, (reconcileDelete env p st).stored = some q →
      q.generation = p.generation ∧ q.deletionTimestampSet = p.deletionTimestampSet) ∧
    ((reconcileDelete env p st).st.releases = st.releases →
      ∀ q, (reconcileDelete env p st).stored = some q → q.finalizers = p.finalizers) := by
  unfold reconcileDelete
  by_cases hfin : containsFinalizer p pipelineFinalizer
  · rw [if_neg (by simp [hfin])]
    by_cases hid : p.status.id ≠ ""
    · rw [if_pos hid]
      dsimp only
      cases hdel : env.deleteResp st.deleteCalls.length with
      | some e =>
          dsimp only
          by_cases h404 : e.isFleetAPI404
          · rw [if_pos h404]
            obtain ⟨hu, hd, hc, hr, hq⟩ := removeAndCommit_spec env p
              { st with deleteCalls := st.deleteCalls ++ [p.status.id] }
            refine ⟨by simpa using hu, ?_, ?_, ?_⟩
            · intro c hcm; rw [hc] at hcm; exact Or.inl (by simpa using hcm)
            · intro q hsq; obtain ⟨h1, h2, -⟩ := hq q hsq; exact ⟨h1, h2⟩
            · intro hrel; rw [hr] at hrel; simp at hrel
          · rw [if_neg h404]
            obtain ⟨hstored, hrel, hdc, hup, hcom⟩ := updateStatusError_frame env p p
              { st with deleteCalls := st.deleteCalls ++ [p.status.id] }
              reasonDeleteFailed e
            obtain ⟨s, hs⟩ := hstored
            refine ⟨by simpa using hup, ?_, ?_, ?_⟩
            · intro c hcm
              rcases hcom c hcm with h | h
              · exact Or.inl (by simpa using h)
              · exact Or.inr h
            · intro q hsq
              rw [hs] at hsq
              cases hsq
              exact ⟨rfl, rfl⟩
            · intro _ q hsq
              rw [hs] at hsq
              cases hsq
              rfl
      | none =>
          dsimp only
          obtain ⟨hu, hd, hc, hr, hq⟩ := removeAndCommit_spec env p
            { st with deleteCalls := st.deleteCalls ++ [p.status.id] }
          refine ⟨by simpa using hu, ?_, ?_, ?_⟩
          · intro c hcm; rw [hc] at hcm; exact Or.inl (by simpa using hcm)
          · intro q hsq; obtain ⟨h1, h2, -⟩ := hq q hsq; exact ⟨h1, h2⟩
          · intro hrel; rw [hr] at hrel; simp at hrel
    · rw [if_neg hid]
      obtain ⟨hu, hd, hc, hr, hq⟩ := removeAndCommit_spec env p st
      refine ⟨hu, ?_, ?_, ?_⟩
      · intro c hcm; rw [hc] at hcm; exact Or.inl hcm
      · intro q hsq; obtain ⟨h1, h2, -⟩ := hq q hsq; exact ⟨h1, h2⟩
      · intro hrel; rw [hr] at hrel; simp at hrel
  · rw [if_pos (by simp [hfin])]
    exact ⟨rfl, fun c hcm => Or.inl hcm, fun q hq => by cases hq; exact ⟨rfl, rfl⟩,
      fun _ q hq => by cases hq; rfl⟩

/-- Top-level frame facts for one reconcile invocation: every committed
status carries the fetched pipeline's generation; a surviving stored
object keeps generation and deletion marker; an upsert call implies the
finalizer was present at fetch; and when no finalizer release happened,
the stored finalizer list is the fetched one, possibly with this
controller's finalizer appended. -/
theorem reconcile_frame (env : Env) (fuel : Nat) (p : Pipeline) :
    (∀ c ∈ (Reconcile env fuel p).st.statusCommits, c.observedGeneration = p.generation) ∧
    (∀ q, (Reconcile env fuel p).stored = some q →
      q.generation = p.generation ∧ q.deletionTimestampSet = p.deletionTimestampSet) ∧
    ((Reconcile env fuel p).st.upsertCalls ≠ [] →
      containsFinalizer p pipelineFinalizer = true) ∧
    ((Reconcile env fuel p).st.releases = 0 →
      ∀ q, (Reconcile env fuel p).stored = some q →
        q.finalizers = p.finalizers ∨ q.finalizers = p.finalizers ++ [pipelineFinalizer]) := by
  unfold Reconcile
  cases hdt : p.deletionTimestampSet with
  | true =>
      rw [if_pos rfl]
      obtain ⟨hu, hcom, hmeta, hkept⟩ := reconcileDelete_frame env p ExecSt.init
      refine ⟨?_, ?_, ?_, ?_⟩
      · intro c hcm
        rcases hcom c hcm with h | h
        · exact absurd h (by simp [ExecSt.init])
        · exact h
      · intro q hq
        obtain ⟨h1, h2⟩ := hmeta q hq
        exact ⟨h1, by rw [h2, hdt]⟩
      · intro hne; rw [hu] at hne; exact (hne rfl).elim
      · intro hrel q hq
        exact Or.inl (hkept (by simpa [ExecSt.init] using hrel) q hq)
  | false =>
      rw [if_neg (by simp)]
      by_cases hfin : containsFinalizer p pipelineFinalizer
      · rw [if_neg (by simp [hfin])]
        by_cases hog : p.status.observedGeneration = p.generation
        · rw [if_pos hog]
          exact ⟨fun c hcm => absurd hcm (by simp [ExecSt.init]),
            fun q hq => by cases hq; exact ⟨rfl, hdt⟩,
            fun _ => hfin,
            fun _ q hq => by cases hq; exact Or.inl rfl⟩
        · rw [if_neg hog]
          obtain ⟨hstored, hrel, hdel, hup, hcom⟩ := reconcileNormal_frame env fuel p p ExecSt.init
          obtain ⟨s, hs⟩ := hstored
          refine ⟨?_, ?_, fun _ => hfin, ?_⟩
          · intro c hcm
            rcases hcom c hcm with h | h
            · exact absurd h (by simp [ExecSt.init])
            · exact h
          · intro q hq
            rw [hs] at hq
            cases hq
            exact ⟨rfl, hdt⟩
          · intro _ q hq
            rw [hs] at hq
            cases hq
            exact Or.inl rfl
      · rw [if_pos (by simp [hfin])]
        unfold metaUpdate
        dsimp only
        cases hmu : env.updateResp ExecSt.init.metaWriteCount with
        | ok =>
            dsimp only
            refine ⟨fun c hcm => absurd hcm (by simp [ExecSt.init]), ?_,
              fun hne => (hne rfl).elim, ?_⟩
            · intro q hq
              split at hq
              · cases hq
              · cases hq
                exact ⟨rfl, hdt⟩
            · intro _ q hq
              split at hq
              · cases hq
              · cases hq
                exact Or.inr rfl
        | conflict =>
            dsimp only
            exact ⟨fun c hcm => absurd hcm (by simp [ExecSt.init]),
              fun q hq => by cases hq; exact ⟨rfl, hdt⟩,
              fun hne => (hne rfl).elim,
              fun _ q hq => by cases hq; exact Or.inl rfl⟩
        | fail m =>
            dsimp only
            exact ⟨fun c hcm => absurd hcm (by simp [ExecSt.init]),
              fun q hq => by cases hq; exact ⟨rfl, hdt⟩,
              fun hne => (hne rfl).elim,
              fun _ q hq => by cases hq; exact Or.inl rfl⟩

/-- The observed-generation gate (step 4 of `Reconcile`): an up-to-date,
finalized, live pipeline is a no-op. -/
theorem reconcile_upToDate (env : Env) (fuel : Nat) (p : Pipeline)
    (hdt : p.deletionTimestampSet = false)
    (hfin : containsFinalizer p pipelineFinalizer = true)
    (hog : p.status.observedGeneration = p.generation) :
    Reconcile env fuel p =
      { res := { requeue := false, requeueAfter := 0 }, err := none,
        stored := some p, st := ExecSt.init } := by
  unfold Reconcile
  rw [if_neg (by simp [hdt]), if_neg (by simp [hfin]), if_pos hog]

/-! ## Concrete objects for witnesses and counterexamples -/

/-! ## Claim C2: request construction -/

/-- **C2** Request construction is the deterministic pure function of §4.2:
the effective name is `Spec.Name`, falling back to the object name when
empty; contents, matchers, enabled and the converted content-type are
copied from the spec; the remote-assigned ID is never included (always
empty in the request); provenance defaults, when `Spec.Source` is unset,
to the Kubernetes origin kind with namespace string `namespace/name`; an
explicit source is converted field-by-field.  Hence every DesiredResource
field set on the resource appears in every upsert request. -/
theorem buildUpsertRequest_fields (p : Pipeline) (r : UpsertPipelineRequest)
    (h : buildUpsertRequest p = Except.ok r) :
    r.pipeline.name = (if p.spec.name = "" then p.name else p.spec.name) ∧
    r.pipeline.contents = p.spec.contents ∧
    r.pipeline.matchers = p.spec.matchers ∧
    r.pipeline.enabled = p.spec.enabled ∧
    r.pipeline.configType = configTypeToFleetAPI p.spec.configType ∧
    r.pipeline.id = "" ∧
    (p.spec.source = none →
      r.pipeline.source = some { type_ := fleetAPISourceTypeKubernetes,
                                 namespace_ := p.namespace_ ++ "/" ++ p.name }) ∧
    (∀ s, p.spec.source = some s →
      r.pipeline.source = some { type_ := sourceTypeToFleetAPI s.type_,
                                 namespace_ := s.namespace_ }) ∧
    r.validateOnly = false := by
  unfold buildUpsertRequest at h
  cases hs : p.spec.source with
  | none =>
      rw [hs] at h
      dsimp only at h
      cases h
      refine ⟨rfl, rfl, rfl, rfl, rfl, rfl, fun _ => ?_, ?_, rfl⟩
      · have : sourceTypeToFleetAPI sourceTypeKubernetes = fleetAPISourceTypeKubernetes := by
          decide
        rw [this]
      · intro s hs2
        cases hs2
  | some s0 =>
      rw [hs] at h
      dsimp only at h
      cases h
      refine ⟨rfl, rfl, rfl, rfl, rfl, rfl, fun hn => ?_, ?_, rfl⟩
      · cases hn
      · intro s hs2
        cases hs2
        rfl

/-- Witness for C2 at `freshP` (defaulted provenance). -/
theorem buildUpsertRequest_fields_witness :
    freshReq.pipeline.name =
      (if freshP.spec.name = "" then freshP.name else freshP.spec.name) ∧
    freshReq.pipeline.contents = freshP.spec.contents ∧
    freshReq.pipeline.matchers = freshP.spec.matchers ∧
    freshReq.pipeline.enabled = freshP.spec.enabled ∧
    freshReq.pipeline.configType = configTypeToFleetAPI freshP.spec.configType ∧
    freshReq.pipeline.id = "" ∧
    (freshP.spec.source = none →
      freshReq.pipeline.source = some { type_ := fleetAPISourceTypeKubernetes,
                                        namespace_ := freshP.namespace_ ++ "/" ++ freshP.name }) ∧
    (∀ s, freshP.spec.source = some s →
      freshReq.pipeline.source = some { type_ := sourceTypeToFleetAPI s.type_,
                                        namespace_ := s.namespace_ }) ∧
    freshReq.validateOnly = false :=
  buildUpsertRequest_fields freshP freshReq rfl

/-! ## Claim C10: request construction never fails -/

/-- **C10** `buildUpsertRequest` is total (its only return carries a `nil`
error), so the request-construction-failure branch of `reconcileNormal`
is unreachable: every entry into the normal path issues at least one
upsert call, whereas the failure branch would return after a
`ValidationError` status write with no upsert call at all. -/
theorem buildUpsertRequest_never_fails (env : Env) (fuel : Nat)
    (p stored : Pipeline) (st : ExecSt) :
    (∃ r, buildUpsertRequest p = Except.ok r) ∧
    (∃ r l, (reconcileNormal env fuel p stored st).st.upsertCalls =
      st.upsertCalls ++ r :: l) :=
  ⟨buildUpsertRequest_isOk p, (reconcileNormal_frame env fuel p stored st).2.2.2.1⟩

/-! ## Claim C7: rate limiting leaves the status untouched -/

/-- **C7** When the upsert fails with a too-many-requests Fleet API error
(429), the engine commits no status write, leaves the stored object
exactly as fetched (so `observedGeneration` is not advanced), returns the
fixed 10-second requeue disposition, and reports no error. -/
theorem rate_limited_frame (env : Env) (fuel : Nat) (p : Pipeline) (op msg : String)
    (hdt : p.deletionTimestampSet = false)
    (hfin : containsFinalizer p pipelineFinalizer = true)
    (hog : ¬ p.status.observedGeneration = p.generation)
    (h429 : env.upsertResp 0 = .error (.fleetAPI 429 op msg)) :
    (Reconcile env fuel p).res = { requeue := false, requeueAfter := 10 } ∧
    (Reconcile env fuel p).err = none ∧
    (Reconcile env fuel p).st.statusCommits = [] ∧
    (Reconcile env fuel p).stored = some p := by
  obtain ⟨req, hreq⟩ := buildUpsertRequest_isOk p
  have hrec : Reconcile env fuel p =
      { res := { requeue := false, requeueAfter := 10 }, err := none,
        stored := some p,
        st := { ExecSt.init with upsertCalls := [req],
                                 upsertCallIDs := [p.status.id] } } := by
    unfold Reconcile
    rw [if_neg (by simp [hdt]), if_neg (by simp [hfin]), if_neg hog]
    unfold reconcileNormal
    rw [hreq]
    dsimp only
    rw [show env.upsertResp ExecSt.init.upsertCalls.length =
      Except.error (GoErr.fleetAPI 429 op msg) from h429]
    unfold handleAPIError
    dsimp only
    rw [if_neg (by decide), if_neg (by decide), if_pos rfl]
    rfl
  rw [hrec]
  exact ⟨rfl, rfl, rfl, rfl⟩

/-- Witness for C7: `readyP` under `env429`. -/
theorem rate_limited_frame_witness :
    (Reconcile env429 3 readyP).res = { requeue := false, requeueAfter := 10 } ∧
    (Reconcile env429 3 readyP).err = none ∧
    (Reconcile env429 3 readyP).st.statusCommits = [] ∧
    (Reconcile env429 3 readyP).stored = some readyP :=
  rate_limited_frame env429 3 readyP "UpsertPipeline" "slow down"
    rfl rfl (by decide) rfl

/-! ## Claim C8: validation errors are terminal but recorded -/

/-- **C8** When the upsert fails with a bad-request Fleet API error (400)
and the status write commits, the engine records exactly one status:
`observedGeneration` advanced to the current generation, both `Synced`
and `Ready` set to `False` with reason `ValidationError` and message
equal to the remote error message; the returned disposition requests no
requeue and carries no error (no automatic retry). -/
theorem validation_error_recorded (env : Env) (fuel : Nat) (p : Pipeline)
    (op msg : String)
    (hdt : p.deletionTimestampSet = false)
    (hfin : containsFinalizer p pipelineFinalizer = true)
    (hog : ¬ p.status.observedGeneration = p.generation)
    (h400 : env.upsertResp 0 = .error (.fleetAPI 400 op msg))
    (hcommit : env.statusUpdateResp 0 = .ok) :
    ∃ s, (Reconcile env fuel p).st.statusCommits = [s] ∧
      s.observedGeneration = p.generation ∧
      (∃ c, findStatusCondition s.conditions conditionTypeSynced = some c ∧
        c.status = conditionFalse ∧ c.reason = reasonValidationError ∧
        c.message = msg ∧ c.observedGeneration = p.generation) ∧
      (∃ c, findStatusCondition s.conditions conditionTypeReady = some c ∧
        c.status = conditionFalse ∧ c.reason = reasonValidationError ∧
        c.message = msg ∧ c.observedGeneration = p.generation) ∧
      (Reconcile env fuel p).res = { requeue := false, requeueAfter := 0 } ∧
      (Reconcile env fuel p).err = none := by
  obtain ⟨req, hreq⟩ := buildUpsertRequest_isOk p
  have hrec : Reconcile env fuel p =
      updateStatusError env p p
        { ExecSt.init with upsertCalls := [req], upsertCallIDs := [p.status.id] }
        reasonValidationError (GoErr.fleetAPI 400 op msg) := by
    unfold Reconcile
    rw [if_neg (by simp [hdt]), if_neg (by simp [hfin]), if_neg hog]
    unfold reconcileNormal
    rw [hreq]
    dsimp only
    rw [show env.upsertResp ExecSt.init.upsertCalls.length =
      Except.error (GoErr.fleetAPI 400 op msg) from h400]
    unfold handleAPIError
    dsimp only
    rw [if_pos rfl]
    rfl
  obtain ⟨s, heq, hid, hog2, hsy, hrd⟩ :=
    updateStatusError_ok env p p
      { ExecSt.init with upsertCalls := [req], upsertCallIDs := [p.status.id] }
      reasonValidationError (GoErr.fleetAPI 400 op msg) hcommit
  rw [hrec, heq]
  exact ⟨s, rfl, hog2, hsy, hrd, rfl, by simp⟩

/-- Witness for C8: `readyP` under `env400`. -/
theorem validation_error_recorded_witness :
    ∃ s, (Reconcile env400 3 readyP).st.statusCommits = [s] ∧
      s.observedGeneration = readyP.generation ∧
      (∃ c, findStatusCondition s.conditions conditionTypeSynced = some c ∧
        c.status = conditionFalse ∧ c.reason = reasonValidationError ∧
        c.message = "bad matcher" ∧ c.observedGeneration = readyP.generation) ∧
      (∃ c, findStatusCondition s.conditions conditionTypeReady = some c ∧
        c.status = conditionFalse ∧ c.reason = reasonValidationError ∧
        c.message = "bad matcher" ∧ c.observedGeneration = readyP.generation) ∧
      (Reconcile env400 3 readyP).res = { requeue := false, requeueAfter := 0 } ∧
      (Reconcile env400 3 readyP).err = none :=
  validation_error_recorded env400 3 readyP "UpsertPipeline" "bad matcher"
    rfl rfl (by decide) rfl rfl

/-! ## Claim C9: server/transport failures advance the gate -/

/-- **C9** When the upsert fails with a structured 5xx or a transport
error and the status commit succeeds, the stored object has
`observedGeneration = generation`; consequently a following invocation on
the unchanged stored object stops at the up-to-date gate and performs no
remote call at all. -/
theorem serverOrTransport_gates_next_reconcile (env : Env) (fuel : Nat)
    (p : Pipeline)
    (hdt : p.deletionTimestampSet = false)
    (hfin : containsFinalizer p pipelineFinalizer = true)
    (hog : ¬ p.status.observedGeneration = p.generation)
    (hsrv : (∃ m, env.upsertResp 0 = .error (.transport m)) ∨
            (∃ code om mm, env.upsertResp 0 = .error (.fleetAPI code om mm) ∧
              500 ≤ code ∧ code ≤ 599))
    (hcommit : env.statusUpdateResp 0 = .ok) :
    ∃ q, (Reconcile env fuel p).stored = some q ∧
      q.status.observedGeneration = q.generation ∧
      ∀ env2 fuel2, (Reconcile env2 fuel2 q).st.upsertCalls = [] ∧
        (Reconcile env2 fuel2 q).st.deleteCalls = [] := by
  obtain ⟨req, hreq⟩ := buildUpsertRequest_isOk p
  have step : ∀ e : GoErr,
      (∃ s, updateStatusError env p p
          { ExecSt.init with upsertCalls := [req], upsertCallIDs := [p.status.id] }
          reasonSyncFailed e =
        { res := { requeue := false, requeueAfter := 0 },
          err := if reasonSyncFailed = reasonValidationError then none else some e,
          stored := some { p with status := s },
          st := { ExecSt.init with
                    upsertCalls := [req], upsertCallIDs := [p.status.id],
                    statusCommits := [s], statusWriteCount := 1 } } ∧
        s.observedGeneration = p.generation) := by
    intro e
    obtain ⟨s, heq, -, hog2, -, -⟩ :=
      updateStatusError_ok env p p
        { ExecSt.init with upsertCalls := [req], upsertCallIDs := [p.status.id] }
        reasonSyncFailed e hcommit
    exact ⟨s, heq, hog2⟩
  have finishq : ∀ s : PipelineStatus, s.observedGeneration = p.generation →
      ∃ q, some (Pipeline.mk p.name p.namespace_ p.generation
          p.deletionTimestampSet p.finalizers p.spec s) = some q ∧
        q.status.observedGeneration = q.generation ∧
        ∀ env2 fuel2, (Reconcile env2 fuel2 q).st.upsertCalls = [] ∧
          (Reconcile env2 fuel2 q).st.deleteCalls = [] := by
    intro s hog2
    refine ⟨Pipeline.mk p.name p.namespace_ p.generation
      p.deletionTimestampSet p.finalizers p.spec s, rfl, hog2, fun env2 fuel2 => ?_⟩
    rw [reconcile_upToDate env2 fuel2
      (Pipeline.mk p.name p.namespace_ p.generation
        p.deletionTimestampSet p.finalizers p.spec s) hdt hfin hog2]
    exact ⟨rfl, rfl⟩
  rcases hsrv with ⟨m, hm⟩ | ⟨code, om, mm, hm, h5a, h5b⟩
  · have hrec : Reconcile env fuel p =
        updateStatusError env p p
          { ExecSt.init with upsertCalls := [req], upsertCallIDs := [p.status.id] }
          reasonSyncFailed (GoErr.transport m) := by
      unfold Reconcile
      rw [if_neg (by simp [hdt]), if_neg (by simp [hfin]), if_neg hog]
      unfold reconcileNormal
      rw [hreq]
      dsimp only
      rw [show env.upsertResp ExecSt.init.upsertCalls.length =
        Except.error (GoErr.transport m) from hm]
      unfold handleAPIError
      dsimp only
      rfl
    obtain ⟨s, heq, hog2⟩ := step (GoErr.transport m)
    rw [hrec, heq]
    exact finishq s hog2
  · have hrec : Reconcile env fuel p =
        updateStatusError env p p
          { ExecSt.init with upsertCalls := [req], upsertCallIDs := [p.status.id] }
          reasonSyncFailed (GoErr.fleetAPI code om mm) := by
      unfold Reconcile
      rw [if_neg (by simp [hdt]), if_neg (by simp [hfin]), if_neg hog]
      unfold reconcileNormal
      rw [hreq]
      dsimp only
      rw [show env.upsertResp ExecSt.init.upsertCalls.length =
        Except.error (GoErr.fleetAPI code om mm) from hm]
      unfold handleAPIError
      dsimp only
      rw [if_neg (by omega), if_neg (by omega), if_neg (by omega)]
      rfl
    obtain ⟨s, heq, hog2⟩ := step (GoErr.fleetAPI code om mm)
    rw [hrec, heq]
    exact finishq s hog2

/-- Witness for C9: `readyP` under `env503`. -/
theorem serverOrTransport_gates_next_reconcile_witness :
    ∃ q, (Reconcile env503 3 readyP).stored = some q ∧
      q.status.observedGeneration = q.generation ∧
      ∀ env2 fuel2, (Reconcile env2 fuel2 q).st.upsertCalls = [] ∧
        (Reconcile env2 fuel2 q).st.deleteCalls = [] :=
  serverOrTransport_gates_next_reconcile env503 3 readyP rfl rfl (by decide)
    (Or.inr ⟨503, "UpsertPipeline", "oops", rfl, by omega, by omega⟩) rfl

/-! ## Claim C3: idempotence of back-to-back reconciles -/

/-- **C3 counterexample** The claim fails as stated: starting from a fresh
resource, the first reconcile only attaches the finalizer (zero remote
calls) and the second reconcile, with no intervening external change,
performs an upsert — one remote call, not zero. -/
theorem reconcile_twice_counterexample :
    (ReconcileTop envOk 3 (some freshP)).st.upsertCalls = [] ∧
    (ReconcileTop envOk 3 (some freshP)).st.deleteCalls = [] ∧
    (ReconcileTop envOk 3
      ((ReconcileTop envOk 3 (some freshP)).stored)).st.upsertCalls.length = 1 := by
  decide

/-- **C3 amended** Calling reconcile twice in succession with no
intervening external change performs zero remote calls on the second call
provided the state the first call leaves in the store has the deletion
marker unset, the finalizer present, and `observedGeneration =
generation` — i.e. the first call completed a sync attempt rather than
stopping at finalizer attachment, being rate limited, losing its status
write, or running the delete path. -/
theorem reconcile_idempotent_when_synced (env1 env2 : Env) (fuel1 fuel2 : Nat)
    (p q : Pipeline)
    (h1 : (ReconcileTop env1 fuel1 (some p)).stored = some q)
    (hdt : q.deletionTimestampSet = false)
    (hfin : containsFinalizer q pipelineFinalizer = true)
    (hog : q.status.observedGeneration = q.generation) :
    (ReconcileTop env2 fuel2 (ReconcileTop env1 fuel1 (some p)).stored).st.upsertCalls = [] ∧
    (ReconcileTop env2 fuel2 (ReconcileTop env1 fuel1 (some p)).stored).st.deleteCalls = [] := by
  rw [h1]
  simp only [ReconcileTop]
  rw [reconcile_upToDate env2 fuel2 q hdt hfin hog]
  exact ⟨rfl, rfl⟩

/-- Witness for the amended C3: a successful sync of `readyP` followed by a
second reconcile. -/
theorem reconcile_idempotent_when_synced_witness :
    (ReconcileTop envOk 3 (ReconcileTop envOk 3 (some readyP)).stored).st.upsertCalls = [] ∧
    (ReconcileTop envOk 3 (ReconcileTop envOk 3 (some readyP)).stored).st.deleteCalls = [] :=
  reconcile_idempotent_when_synced envOk envOk 3 3 readyP syncedP
    (by decide) rfl rfl (by decide)

/-! ## Claim C4: recreate-on-not-found -/

theorem updateStatusSuccess_callIDs (env : Env) (p stored : Pipeline)
    (st : ExecSt) (fp : FleetPipeline) :
    (updateStatusSuccess env p stored st fp).st.upsertCallIDs = st.upsertCallIDs := by
  unfold updateStatusSuccess statusUpdate
  cases hc : fp.createdAt <;> cases hu : fp.updatedAt <;>
    cases h : env.statusUpdateResp st.statusWriteCount <;> simp [hc, hu, h]

theorem updateStatusError_callIDs (env : Env) (p stored : Pipeline)
    (st : ExecSt) (reason : String) (e : GoErr) :
    (updateStatusError env p stored st reason e).st.upsertCallIDs = st.upsertCallIDs := by
  unfold updateStatusError statusUpdate
  cases h : env.statusUpdateResp st.statusWriteCount with
  | ok =>
      simp only [h]
      by_cases hr : reason = reasonValidationError <;> simp [hr]
  | conflict => simp [h]
  | fail m => simp [h]

/-- One round of the normal path: when the upsert response for this call
is not a not-found Fleet API error, exactly one upsert call is issued
(logged together with the in-memory remote ID at call time) and no
recreate recursion happens. -/
theorem reconcileNormal_single_round (env : Env) (fuel : Nat)
    (p stored : Pipeline) (st : ExecSt)
    (hnf : ∀ e, env.upsertResp st.upsertCalls.length = Except.error e →
      e.isFleetAPI404 = false) :
    ∃ r, buildUpsertRequest p = Except.ok r ∧
      (reconcileNormal env fuel p stored st).st.upsertCalls = st.upsertCalls ++ [r] ∧
      (reconcileNormal env fuel p stored st).st.upsertCallIDs =
        st.upsertCallIDs ++ [p.status.id] := by
  obtain ⟨req, hreq⟩ := buildUpsertRequest_isOk p
  refine ⟨req, hreq, ?_⟩
  unfold reconcileNormal
  rw [hreq]
  dsimp only
  cases hresp : env.upsertResp st.upsertCalls.length with
  | ok fp =>
      constructor
      · have := (updateStatusSuccess_frame env p stored
          { st with upsertCalls := st.upsertCalls ++ [req],
                    upsertCallIDs := st.upsertCallIDs ++ [p.status.id] } fp).2.2.2.1
        simpa using this
      · have := updateStatusSuccess_callIDs env p stored
          { st with upsertCalls := st.upsertCalls ++ [req],
                    upsertCallIDs := st.upsertCallIDs ++ [p.status.id] } fp
        simpa using this
  | error e =>
      have hne := hnf e hresp
      unfold handleAPIError
      cases e with
      | fleetAPI code op msg =>
          dsimp only
          have hn404 : ¬ code = 404 := by
            simpa [GoErr.isFleetAPI404] using hne
          by_cases h400 : code = 400
          · rw [if_pos h400]
            constructor
            · have := (updateStatusError_frame env p stored
                { st with upsertCalls := st.upsertCalls ++ [req],
                          upsertCallIDs := st.upsertCallIDs ++ [p.status.id] }
                reasonValidationError (.fleetAPI code op msg)).2.2.2.1
              simpa using this
            · have := updateStatusError_callIDs env p stored
                { st with upsertCalls := st.upsertCalls ++ [req],
                          upsertCallIDs := st.upsertCallIDs ++ [p.status.id] }
                reasonValidationError (.fleetAPI code op msg)
              simpa using this
          · rw [if_neg h400, if_neg hn404]
            by_cases h429 : code = 429
            · rw [if_pos h429]
              exact ⟨by simp, by simp⟩
            · rw [if_neg h429]
              constructor
              · have := (updateStatusError_frame env p stored
                  { st with upsertCalls := st.upsertCalls ++ [req],
                            upsertCallIDs := st.upsertCallIDs ++ [p.status.id] }
                  reasonSyncFailed (.fleetAPI code op msg)).2.2.2.1
                simpa using this
              · have := updateStatusError_callIDs env p stored
                  { st with upsertCalls := st.upsertCalls ++ [req],
                            upsertCallIDs := st.upsertCallIDs ++ [p.status.id] }
                  reasonSyncFailed (.fleetAPI code op msg)
                simpa using this
      | transport m =>
          dsimp only
          constructor
          · have := (updateStatusError_frame env p stored
              { st with upsertCalls := st.upsertCalls ++ [req],
                        upsertCallIDs := st.upsertCallIDs ++ [p.status.id] }
              reasonSyncFailed (.transport m)).2.2.2.1
            simpa using this
          · have := updateStatusError_callIDs env p stored
              { st with upsertCalls := st.upsertCalls ++ [req],
                        upsertCallIDs := st.upsertCallIDs ++ [p.status.id] }
              reasonSyncFailed (.transport m)
            simpa using this
      | simple m =>
          dsimp only
          constructor
          · have := (updateStatusError_frame env p stored
              { st with upsertCalls := st.upsertCalls ++ [req],
                        upsertCallIDs := st.upsertCallIDs ++ [p.status.id] }
              reasonSyncFailed (.simple m)).2.2.2.1
            simpa using this
          · have := updateStatusError_callIDs env p stored
              { st with upsertCalls := st.upsertCalls ++ [req],
                        upsertCallIDs := st.upsertCallIDs ++ [p.status.id] }
              reasonSyncFailed (.simple m)
            simpa using this

/-- **C4 counterexample** The claim's "re-attempts the upsert exactly once
— not more than once" fails: when the re-attempted upsert itself returns
not-found again, the engine recurses again.  Under `env404twice`
(two not-found answers, then success) a single invocation issues three
upsert calls — the initial attempt plus two re-attempts. -/
theorem notFound_recreate_counterexample :
    (Reconcile env404twice 9 recreateP).st.upsertCalls.length = 3 ∧
    (Reconcile env404twice 9 recreateP).st.upsertCallIDs = ["X", "", ""] := by
  decide

/-- **C4 amended** When the first upsert fails with a not-found Fleet API
error, the engine clears the in-memory remote ID and immediately
re-attempts the upsert within the same invocation; provided the
re-attempt's own outcome is not another not-found error, the re-attempt
happens exactly once: the invocation issues exactly two upsert calls, the
first carrying the original remote ID and the second the cleared (empty)
one.  (If the re-attempt also returns not-found, the engine recurses and
re-attempts again, as the counterexample shows.) -/
theorem notFound_recreate_once (env : Env) (fuel : Nat) (p : Pipeline)
    (op msg : String)
    (hdt : p.deletionTimestampSet = false)
    (hfin : containsFinalizer p pipelineFinalizer = true)
    (hog : ¬ p.status.observedGeneration = p.generation)
    (h404 : env.upsertResp 0 = .error (.fleetAPI 404 op msg))
    (hsecond : ∀ e, env.upsertResp 1 = Except.error e → e.isFleetAPI404 = false) :
    (Reconcile env (fuel + 1) p).st.upsertCalls.length = 2 ∧
    (Reconcile env (fuel + 1) p).st.upsertCallIDs = [p.status.id, ""] := by
  obtain ⟨req, hreq⟩ := buildUpsertRequest_isOk p
  have hrec : Reconcile env (fuel + 1) p =
      reconcileNormal env fuel
        { p with status := { p.status with id := "" } } p
        { ExecSt.init with upsertCalls := [req], upsertCallIDs := [p.status.id] } := by
    unfold Reconcile
    rw [if_neg (by simp [hdt]), if_neg (by simp [hfin]), if_neg hog]
    conv_lhs => unfold reconcileNormal
    rw [hreq]
    dsimp only
    rw [show env.upsertResp ExecSt.init.upsertCalls.length =
      Except.error (GoErr.fleetAPI 404 op msg) from h404]
    unfold handleAPIError
    dsimp only
    rw [if_neg (by decide), if_pos rfl]
    dsimp only
    rfl
  obtain ⟨r, -, hcalls, hids⟩ := reconcileNormal_single_round env fuel
    { p with status := { p.status with id := "" } } p
    { ExecSt.init with upsertCalls := [req], upsertCallIDs := [p.status.id] }
    (fun e he => hsecond e he)
  rw [hrec]
  constructor
  · rw [hcalls]; simp
  · rw [hids]; simp

/-- Witness for the amended C4: `recreateP` under `env404once`. -/
theorem notFound_recreate_once_witness :
    (Reconcile env404once 9 recreateP).st.upsertCalls.length = 2 ∧
    (Reconcile env404once 9 recreateP).st.upsertCallIDs = ["X", ""] := by
  have h := notFound_recreate_once env404once 8 recreateP "UpsertPipeline" "gone"
    rfl rfl (by decide) rfl (by intro e he; cases he)
  simpa using h

/-! ## Claim C1: the delete protocol -/

theorem contains_filter_ne (l : List String) (f : String) :
    (l.filter (fun s => s ≠ f)).contains f = false := by
  induction l with
  | nil => rfl
  | cons a t ih =>
      by_cases h : a = f
      · simp [List.filter_cons, h, ih]
      · simp [List.filter_cons, h, List.contains_cons, ih]
        exact fun he => h he.symm

/-- When the metadata write commits, the finalizer-removal tail reports no
error and this controller's finalizer is gone from the store. -/
theorem removeAndCommit_ok (env : Env) (p : Pipeline) (st : ExecSt)
    (hok : env.updateResp st.metaWriteCount = .ok) :
    (removeAndCommit env p st).err = none ∧
    finalizerGone (removeAndCommit env p st) = true := by
  unfold removeAndCommit metaUpdate
  dsimp only
  rw [hok]
  dsimp only
  refine ⟨rfl, ?_⟩
  unfold finalizerGone
  split
  · rfl
  · rename_i q hq
    split at hq
    · cases hq
    · cases hq
      simp [containsFinalizer, removeFinalizer, contains_filter_ne]

/-- **C1** On the delete path (deletion marker set, finalizer present):
with an empty remote ID the engine never calls `Delete`; with a non-empty
remote ID it calls `Delete` exactly once in that attempt; the finalizer
is removed (or the object physically deleted) only after a
success-or-not-found delete result; and on any other delete error the
finalizer is retained on the still-stored object and, when the status
write commits, `Synced=False` with reason `DeleteFailed` is recorded. -/
theorem reconcileDelete_protocol (env : Env) (fuel : Nat) (p : Pipeline)
    (hdt : p.deletionTimestampSet = true)
    (hfin : containsFinalizer p pipelineFinalizer = true) :
    (p.status.id = "" → (Reconcile env fuel p).st.deleteCalls = []) ∧
    (¬ p.status.id = "" →
      (Reconcile env fuel p).st.deleteCalls = [p.status.id] ∧
      (finalizerGone (Reconcile env fuel p) = true →
        okOr404 (env.deleteResp 0) = true) ∧
      (okOr404 (env.deleteResp 0) = true →
        (Reconcile env fuel p).st.releases = 1 ∧
        (env.updateResp 0 = .ok →
          (Reconcile env fuel p).err = none ∧
          finalizerGone (Reconcile env fuel p) = true)) ∧
      (okOr404 (env.deleteResp 0) = false →
        (∃ q, (Reconcile env fuel p).stored = some q ∧
          containsFinalizer q pipelineFinalizer = true) ∧
        (env.statusUpdateResp 0 = .ok →
          ∃ s c, (Reconcile env fuel p).st.statusCommits = [s] ∧
            findStatusCondition s.conditions conditionTypeSynced = some c ∧
            c.status = conditionFalse ∧ c.reason = reasonDeleteFailed ∧
            c.observedGeneration = p.generation))) := by
  by_cases hid : p.status.id = ""
  · have hpath : Reconcile env fuel p = removeAndCommit env p ExecSt.init := by
      unfold Reconcile
      rw [if_pos hdt]
      unfold reconcileDelete
      rw [if_neg (by simp [hfin]), if_neg (by simp [hid])]
    rw [hpath]
    exact ⟨fun _ => (removeAndCommit_spec env p ExecSt.init).2.1,
      fun hne => absurd hid hne⟩
  · cases hdel : env.deleteResp 0 with
    | none =>
        have hpath : Reconcile env fuel p =
            removeAndCommit env p { ExecSt.init with deleteCalls := [p.status.id] } := by
          unfold Reconcile
          rw [if_pos hdt]
          unfold reconcileDelete
          rw [if_neg (by simp [hfin]), if_pos (by simpa using hid)]
          dsimp only
          rw [show env.deleteResp ExecSt.init.deleteCalls.length = none from hdel]
          rfl
        rw [hpath]
        obtain ⟨-, hd, -, hr, -⟩ := removeAndCommit_spec env p
          { ExecSt.init with deleteCalls := [p.status.id] }
        refine ⟨fun h => absurd h hid, fun _ =>
          ⟨by simpa using hd, fun _ => by simp [okOr404, hdel],
           fun _ => ⟨by simpa using hr, fun hmu =>
             removeAndCommit_ok env p
               { ExecSt.init with deleteCalls := [p.status.id] } hmu⟩,
           fun hbad => ?_⟩⟩
        exact absurd hbad (by simp [okOr404])
    | some e =>
        by_cases h404 : e.isFleetAPI404
        · have hpath : Reconcile env fuel p =
              removeAndCommit env p { ExecSt.init with deleteCalls := [p.status.id] } := by
            unfold Reconcile
            rw [if_pos hdt]
            unfold reconcileDelete
            rw [if_neg (by simp [hfin]), if_pos (by simpa using hid)]
            dsimp only
            rw [show env.deleteResp ExecSt.init.deleteCalls.length = some e from hdel]
            dsimp only
            rw [if_pos h404]
            rfl
          rw [hpath]
          obtain ⟨-, hd, -, hr, -⟩ := removeAndCommit_spec env p
            { ExecSt.init with deleteCalls := [p.status.id] }
          refine ⟨fun h => absurd h hid, fun _ =>
            ⟨by simpa using hd, fun _ => by simp [okOr404, hdel, h404],
             fun _ => ⟨by simpa using hr, fun hmu =>
               removeAndCommit_ok env p
                 { ExecSt.init with deleteCalls := [p.status.id] } hmu⟩,
             fun hbad => ?_⟩⟩
          exact absurd hbad (by simp [okOr404, h404])
        · have hpath : Reconcile env fuel p =
              updateStatusError env p p
                { ExecSt.init with deleteCalls := [p.status.id] }
                reasonDeleteFailed e := by
            unfold Reconcile
            rw [if_pos hdt]
            unfold reconcileDelete
            rw [if_neg (by simp [hfin]), if_pos (by simpa using hid)]
            dsimp only
            rw [show env.deleteResp ExecSt.init.deleteCalls.length = some e from hdel]
            dsimp only
            rw [if_neg h404]
            rfl
          rw [hpath]
          obtain ⟨⟨s0, hs0⟩, -, hdc, -, -⟩ := updateStatusError_frame env p p
            { ExecSt.init with deleteCalls := [p.status.id] }
            reasonDeleteFailed e
          refine ⟨fun h => absurd h hid, fun _ => ⟨by simpa using hdc, ?_, ?_, ?_⟩⟩
          pick_goal 2
          · intro habs
            exact absurd habs (by simp [okOr404, h404])
          · intro hgone
            exfalso
            unfold finalizerGone at hgone
            rw [hs0] at hgone
            have : containsFinalizer
                { p with status := s0 } pipelineFinalizer = true := by
              simpa [containsFinalizer] using hfin
            simp [this] at hgone
          · intro _
            constructor
            · exact ⟨_, hs0, by simpa [containsFinalizer] using hfin⟩
            · intro hcommit
              obtain ⟨s, heq, -, -, hsy, -⟩ :=
                updateStatusError_ok env p p
                  { ExecSt.init with deleteCalls := [p.status.id] }
                  reasonDeleteFailed e hcommit
              obtain ⟨c, hc1, hc2, hc3, -, hc5⟩ := hsy
              rw [heq]
              exact ⟨s, c, rfl, hc1, hc2, hc3, hc5⟩

/-- Witness for C1: deletion of `delP` (remote ID "X") when the remote
delete fails with a 500. -/
theorem reconcileDelete_protocol_witness :
    (delP.status.id = "" → (Reconcile envDelErr 3 delP).st.deleteCalls = []) ∧
    (¬ delP.status.id = "" →
      (Reconcile envDelErr 3 delP).st.deleteCalls = [delP.status.id] ∧
      (finalizerGone (Reconcile envDelErr 3 delP) = true →
        okOr404 (envDelErr.deleteResp 0) = true) ∧
      (okOr404 (envDelErr.deleteResp 0) = true →
        (Reconcile envDelErr 3 delP).st.releases = 1 ∧
        (envDelErr.updateResp 0 = .ok →
          (Reconcile envDelErr 3 delP).err = none ∧
          finalizerGone (Reconcile envDelErr 3 delP) = true)) ∧
      (okOr404 (envDelErr.deleteResp 0) = false →
        (∃ q, (Reconcile envDelErr 3 delP).stored = some q ∧
          containsFinalizer q pipelineFinalizer = true) ∧
        (envDelErr.statusUpdateResp 0 = .ok →
          ∃ s c, (Reconcile envDelErr 3 delP).st.statusCommits = [s] ∧
            findStatusCondition s.conditions conditionTypeSynced = some c ∧
            c.status = conditionFalse ∧ c.reason = reasonDeleteFailed ∧
            c.observedGeneration = delP.generation))) :=
  reconcileDelete_protocol envDelErr 3 delP rfl rfl

/-! ## A multi-invocation trace model

For the store-level invariants (C5, C6) we run the engine over a trace of
events on a single resource identity: engine invocations (each with its
own oracle environment) interleaved with the two external writes the
resource store performs on the watched object — a spec edit (which bumps
the monotonically increasing generation) and the setting of the deletion
marker.  `World` carries the store contents, the concatenated log of
committed status writes, and whether a sync attempt has been made with no
confirmed successful-or-moot delete since. -/

theorem chain_le_append_const (l l2 : List Int) (g : Int)
    (hc : List.Chain' (· ≤ ·) l) (hle : ∀ x ∈ l, x ≤ g)
    (hall : ∀ x ∈ l2, x = g) :
    List.Chain' (· ≤ ·) (l ++ l2) := by
  rw [List.chain'_append]
  refine ⟨hc, ?_, ?_⟩
  · exact List.Pairwise.chain'
      (List.pairwise_of_forall_mem_list fun a ha b hb => by
        rw [hall a ha, hall b hb])
  · intro x hx y hy
    rw [hall y (List.mem_of_mem_head? hy)]
    exact hle x (List.mem_of_getLast?_eq_some hx)

theorem stepWorld_genInv (w : World) (s : Step) (h : GenInv w) :
    GenInv (stepWorld w s) := by
  obtain ⟨hchain, hle⟩ := h
  cases s with
  | reconcile env fuel =>
      unfold stepWorld
      cases hst : w.stored with
      | none => exact ⟨hchain, hle⟩
      | some p =>
          obtain ⟨hcom, hmeta, -, -⟩ := reconcile_frame env fuel p
          dsimp only
          constructor
          · rw [List.map_append]
            exact chain_le_append_const _ _ p.generation hchain
              (by
                intro x hx
                rw [List.mem_map] at hx
                obtain ⟨c, hc, hcx⟩ := hx
                rw [← hcx]
                exact hle p hst c hc)
              (by
                intro x hx
                rw [List.mem_map] at hx
                obtain ⟨c, hc, hcx⟩ := hx
                rw [← hcx]
                exact hcom c hc)
          · intro q hq c hc
            obtain ⟨hgen, -⟩ := hmeta q hq
            rw [hgen]
            rw [List.mem_append] at hc
            rcases hc with hc | hc
            · exact hle p hst c hc
            · rw [hcom c hc]
  | bumpGeneration sp =>
      unfold stepWorld
      refine ⟨hchain, ?_⟩
      intro q hq c hc
      cases hst : w.stored with
      | none => rw [hst] at hq; cases hq
      | some p =>
          rw [hst] at hq
          cases hq
          have := hle p hst c hc
          dsimp only
          omega
  | markDeleted =>
      unfold stepWorld
      refine ⟨hchain, ?_⟩
      intro q hq c hc
      cases hst : w.stored with
      | none => rw [hst] at hq; cases hq
      | some p =>
          rw [hst] at hq
          cases hq
          exact hle p hst c hc

theorem runTrace_genInv (steps : List Step) :
    ∀ w : World, GenInv w → GenInv (runTrace w steps) := by
  induction steps with
  | nil => exact fun w h => h
  | cons s rest ih => exact fun w h => ih _ (stepWorld_genInv w s h)

/-- **C5** Along every trace of engine invocations and store-side events
(spec edits bump the generation, the deletion marker may be set) for a
single resource identity, the sequence of successfully committed status
writes has monotonically non-decreasing `observedGeneration`, and every
committed `observedGeneration` is bounded by the stored object's current
generation — the engine never claims a generation it has not attempted. -/
theorem observedGeneration_monotone (p0 : Pipeline) (steps : List Step) :
    List.Chain' (· ≤ ·)
      ((runTrace (initWorld p0) steps).commits.map (fun c => c.observedGeneration)) ∧
    ∀ q, (runTrace (initWorld p0) steps).stored = some q →
      ∀ c ∈ (runTrace (initWorld p0) steps).commits,
        c.observedGeneration ≤ q.generation :=
  runTrace_genInv steps (initWorld p0)
    ⟨List.chain'_nil, fun q _ c hc => absurd hc (by simp [initWorld])⟩

/-! ## Claim C6: finalizer presence versus sync attempts -/

theorem contains_append_self (l : List String) (f : String) :
    (l ++ [f]).contains f = true := by
  induction l with
  | nil => simp [List.contains_cons]
  | cons a t ih => simp [List.contains_cons, ih]

/-- **C6 counterexample** The biconditional fails in the only-if
direction: the engine attaches the finalizer one pass before the first
sync attempt, so after the first reconcile of a fresh resource the
finalizer is present although no sync attempt (no remote call at all) has
ever been made. -/
theorem finalizer_iff_counterexample :
    (runTrace (initWorld freshP) [Step.reconcile envOk 3]).attemptedSince = false ∧
    (runTrace (initWorld freshP) [Step.reconcile envOk 3]).stored = some readyP ∧
    containsFinalizer readyP pipelineFinalizer = true := by
  decide

theorem stepWorld_finInv (w : World) (s : Step) (h : FinInv w) :
    FinInv (stepWorld w s) := by
  cases s with
  | reconcile env fuel =>
      unfold stepWorld
      cases hst : w.stored with
      | none => exact h
      | some p =>
          obtain ⟨-, -, hupfin, hkept⟩ := reconcile_frame env fuel p
          dsimp only
          intro q hq hatt
          by_cases hrel : 0 < (Reconcile env fuel p).st.releases
          · rw [if_pos hrel] at hatt
            cases hatt
          · rw [if_neg hrel] at hatt
            have hrel0 : (Reconcile env fuel p).st.releases = 0 := by omega
            have hfinq := hkept hrel0 q hq
            have hfinp : containsFinalizer p pipelineFinalizer = true := by
              rcases Bool.or_eq_true_iff.mp hatt with hprev | hcall
              · exact h p hst hprev
              · exact hupfin (by simpa using hcall)
            unfold containsFinalizer at hfinp ⊢
            rcases hfinq with hfq | hfq
            · rw [hfq]
              exact hfinp
            · rw [hfq]
              exact contains_append_self _ _
  | bumpGeneration sp =>
      unfold stepWorld
      intro q hq hatt
      cases hst : w.stored with
      | none => rw [hst] at hq; cases hq
      | some p =>
          rw [hst] at hq
          cases hq
          exact h p hst hatt
  | markDeleted =>
      unfold stepWorld
      intro q hq hatt
      cases hst : w.stored with
      | none => rw [hst] at hq; cases hq
      | some p =>
          rw [hst] at hq
          cases hq
          exact h p hst hatt

theorem runTrace_finInv (steps : List Step) :
    ∀ w : World, FinInv w → FinInv (runTrace w steps) := by
  induction steps with
  | nil => exact fun w h => h
  | cons s rest ih => exact fun w h => ih _ (stepWorld_finInv w s h)

/-- **C6 amended** The forward direction holds: along every trace starting
from a resource with no attempt recorded, whenever a sync attempt has
been made and no confirmed-successful or confirmed-moot delete (a delete
acknowledged, answered not-found, or skipped because the remote ID was
never assigned) has occurred since, the stored object carries the
finalizer token.  The converse is false — the finalizer is attached one
pass before the first sync attempt (see the counterexample). -/
theorem finalizer_present_after_attempt (p0 : Pipeline) (steps : List Step) :
    ∀ q, (runTrace (initWorld p0) steps).stored = some q →
      (runTrace (initWorld p0) steps).attemptedSince = true →
      containsFinalizer q pipelineFinalizer = true :=
  runTrace_finInv steps (initWorld p0) (fun q _ hatt => by cases hatt)

/-- Witness for the amended C6: one successful sync of `readyP` leaves the
attempt recorded and the finalizer present on the stored object. -/
theorem finalizer_present_after_attempt_witness :
    containsFinalizer syncedP pipelineFinalizer = true :=
  finalizer_present_after_attempt readyP [Step.reconcile envOk 3] syncedP
    (by decide) (by decide)

end FleetOp